import Mathlib

/-!
Shallow embedding of `src/code_models/gradcam.py` (class `GradCAM`):
construction-time layer selection and score linearization, the
`compute_heatmap` numeric pipeline, and `overlay_heatmap` blending.
Machine floats are modelled with exact rationals; the TensorFlow
autodiff pass is an assumed external service whose outputs (target
layer activations, predictions, gradients) are inputs to the pipeline.
-/

/-- Error kinds surfaced by the embedded `GradCAM` operations, matching the
spec's error vocabulary (`KeyError` for a missing config key, `ValueError`
for no 4D layer, TF's out-of-range indexing error for a bad class index). -/
inductive GErr where
  | keyError
  | noSpatialLayerFound
  | invalidClassIndex
  | unknownLayer
deriving DecidableEq, Repr

/-- A Keras layer as seen by the constructor's scan: a name and the
`output_shape` tuple (rank = list length; index 1 is the spatial extent). -/
structure SLayer where
  name : String
  outputShape : List Nat
deriving DecidableEq, Repr

/-- The guard of line 40 of `gradcam.py`:
`len(layer.output_shape) == 4 and layer.output_shape[1] >= target_layer_min_shape`. -/
def qualifies (minShape : Nat) (l : SLayer) : Bool :=
  l.outputShape.length == 4 && decide (minShape ≤ l.outputShape.getD 1 0)

/-- Lines 38-42: loop over the layers in reverse order and take the first
layer passing the guard, returning its name. -/
def findTargetLayer (layers : List SLayer) (minShape : Nat) : Option String :=
  (layers.reverse.find? (qualifies minShape)).map (fun l => l.name)

/-- `get_config()` dictionary lookup: `config['activation']`, as an
association list (`none` models a missing key, i.e. a Python `KeyError`). -/
def cfgLookup (entries : List (String × String)) (k : String) : Option String :=
  (entries.find? (fun e => e.1 == k)).map (fun e => e.2)

/-- A classifier as seen by the constructor: its layer list (in definition
order, final stage last) and the final stage's configuration dictionary. -/
structure SModel where
  layers : List SLayer
  finalCfg : List (String × String)
deriving DecidableEq, Repr

/-- Lines 20-29: when the final activation is softmax, the rebuilt model's
layer list is the original one with the terminal stage replaced by the fresh
`Dense` layer `'new_layer'`; a `Dense` built from the same config and
attached to the same preceding output has the same output shape. -/
def linLayers (m : SModel) : List SLayer :=
  m.layers.dropLast ++ [{ name := "new_layer",
                          outputShape := (m.layers.getLastD ⟨"", []⟩).outputShape }]

/-- The layer list of `self.model` after the linearization branch: the
rebuilt list when the final activation is `'softmax'`, else the original. -/
def selectLayers (m : SModel) (act : String) : List SLayer :=
  if act = "softmax" then linLayers m else m.layers

/-- `GradCAM.__init__` (lines 17-48), structural part: look up
`config['activation']` (KeyError if absent), pick the model whose layers are
scanned, then either keep the explicit layer name or scan in reverse,
raising `ValueError` ("Could not find 4D layer") when no layer qualifies.
Returns the (layer list of `self.model`, `self.target_layer_name`) pair. -/
def gradCAMInitS (m : SModel) (targetLayerName : Option String) (minShape : Nat) :
    Except GErr (List SLayer × String) :=
  match cfgLookup m.finalCfg "activation" with
  | none => .error .keyError
  | some act =>
    let ls := selectLayers m act
    match targetLayerName with
    | some n => .ok (ls, n)
    | none =>
      match findTargetLayer ls minShape with
      | some n => .ok (ls, n)
      | none => .error .noSpatialLayerFound

/-- The final stage's activation kind, as configured: `'softmax'`, the
identity (`tf.keras.activations.linear`), or `'relu'`. -/
inductive ActKind where
  | softmax
  | linear
  | relu
deriving DecidableEq, Repr

/-- Semantics of an activation applied to a score vector.  The softmax
function itself is an external library primitive, so it is a parameter
(`softmaxSem`); `linear` is the identity, `relu` clamps at zero. -/
def applyAct (softmaxSem : (Fin n → ℚ) → (Fin n → ℚ)) :
    ActKind → (Fin n → ℚ) → (Fin n → ℚ)
  | .softmax, v => softmaxSem v
  | .linear, v => v
  | .relu, v => fun i => max 0 (v i)

/-- A classifier with a terminal `Dense` stage: `backbone` is the whole
computation up to `model.layers[-2].output`, then kernel/bias of the final
`Dense` and its activation. -/
structure DenseNet (inD hD outD : Nat) where
  backbone : (Fin inD → ℚ) → (Fin hD → ℚ)
  kernel : Fin hD → Fin outD → ℚ
  bias : Fin outD → ℚ
  finalAct : ActKind

/-- The affine part of the final `Dense` stage: `W·(backbone x) + b`. -/
def denseAffine (m : DenseNet inD hD outD) (x : Fin inD → ℚ) : Fin outD → ℚ :=
  fun j => (∑ i, m.backbone x i * m.kernel i j) + m.bias j

/-- Full forward pass of the classifier: activation applied to the affine
output of the final stage. -/
def forwardNet (softmaxSem : (Fin outD → ℚ) → (Fin outD → ℚ))
    (m : DenseNet inD hD outD) (x : Fin inD → ℚ) : Fin outD → ℚ :=
  applyAct softmaxSem m.finalAct (denseAffine m x)

/-- Lines 18-31 of `gradcam.py`, semantic part: when the final activation is
softmax, build a new terminal `Dense` from the same config with the
activation replaced by `linear`, attached to the same preceding graph, and
set its weights to copies of the original stage's weights; otherwise keep
the model unmodified. -/
def linearizeModel (m : DenseNet inD hD outD) : DenseNet inD hD outD :=
  if m.finalAct = ActKind.softmax then
    { backbone := m.backbone, kernel := m.kernel, bias := m.bias,
      finalAct := ActKind.linear }
  else m

/-- The spec's notion of the pre-softmax logit vector of the original model:
the raw affine score of the final stage before any activation. -/
def logits (m : DenseNet inD hD outD) (x : Fin inD → ℚ) : Fin outD → ℚ :=
  denseAffine m x

/-- TensorFlow basic-indexing semantics for `predictions[:, classIdx]` along
an axis of length `n`: a Python-style index is valid when `-n ≤ i < n`,
negative values counting from the end; out of range raises. -/
def tfColIndex (n : Nat) (i : Int) : Option (Fin n) :=
  if h : 0 ≤ i ∧ i < (n : Int) then
    some ⟨i.toNat, by omega⟩
  else if h2 : -(n : Int) ≤ i ∧ i < 0 then
    some ⟨(i + (n : Int)).toNat, by omega⟩
  else none

/-- The outputs of the recorded forward pass and of `tape.gradient`,
external autodiff services: target-layer activations `conv` (batch of 1),
the prediction row `preds`, and for each class index the gradient of that
class's score with respect to `conv`. -/
structure AutodiffResult (hL wL cC n : Nat) where
  conv : Fin 1 → Fin hL → Fin wL → Fin cC → ℚ
  preds : Fin n → ℚ
  gradFor : Fin n → (Fin 1 → Fin hL → Fin wL → Fin cC → ℚ)

/-- Lines 72-74: `tf.cast(convOutputs > 0, "float32") *
tf.cast(grads > 0, "float32") * grads`. -/
def guidedGrads (conv grads : Fin 1 → Fin hL → Fin wL → Fin cC → ℚ) :
    Fin 1 → Fin hL → Fin wL → Fin cC → ℚ :=
  fun b h w c =>
    (if 0 < conv b h w c then (1 : ℚ) else 0) *
      (if 0 < grads b h w c then (1 : ℚ) else 0) * grads b h w c

/-- Line 85: `tf.reduce_mean(guidedGrads, axis=(0, 1))` on the batch-0
slice — the spatial mean over height and width, one scalar per channel. -/
def camWeights (conv grads : Fin 1 → Fin hL → Fin wL → Fin cC → ℚ) :
    Fin cC → ℚ :=
  fun c => (∑ h, ∑ w, guidedGrads conv grads 0 h w c) / ((hL : ℚ) * (wL : ℚ))

/-- Line 86: `tf.reduce_sum(tf.multiply(weights, convOutputs), axis=-1)` on
the batch-0 slice — the weighted sum over channels at each location. -/
def camMap (conv grads : Fin 1 → Fin hL → Fin wL → Fin cC → ℚ) :
    Fin hL → Fin wL → ℚ :=
  fun h w => ∑ c, camWeights conv grads c * conv 0 h w c

/-- Pixel access with indices clamped to the valid range (OpenCV border
replication at the image edge, empty source reads as 0). -/
def getClamped (src : Fin sh → Fin sw → ℚ) (y x : Int) : ℚ :=
  if hh : 0 < sh then
    if hw : 0 < sw then
      src ⟨min (max y 0).toNat (sh - 1),
           Nat.lt_of_le_of_lt (Nat.min_le_right _ _) (Nat.sub_lt hh Nat.one_pos)⟩
        ⟨min (max x 0).toNat (sw - 1),
         Nat.lt_of_le_of_lt (Nat.min_le_right _ _) (Nat.sub_lt hw Nat.one_pos)⟩
    else 0
  else 0

/-- Bilinear interpolation of `src` at fractional source coordinates. -/
def bilinearAt (src : Fin sh → Fin sw → ℚ) (fy fx : ℚ) : ℚ :=
  let y0 : Int := ⌊fy⌋
  let x0 : Int := ⌊fx⌋
  let dy := fy - (y0 : ℚ)
  let dx := fx - (x0 : ℚ)
  (1 - dy) * ((1 - dx) * getClamped src y0 x0 + dx * getClamped src y0 (x0 + 1)) +
    dy * ((1 - dx) * getClamped src (y0 + 1) x0 + dx * getClamped src (y0 + 1) (x0 + 1))

/-- `cv2.resize(cam, (dw, dh))` with the default bilinear interpolation and
half-pixel coordinate convention: the result has `dh` rows and `dw`
columns. -/
def cv2Resize (sh sw : Nat) (src : Fin sh → Fin sw → ℚ) (dw dh : Nat) :
    Fin dh → Fin dw → ℚ :=
  fun i j =>
    bilinearAt src
      (((i : ℚ) + 1 / 2) * (sh : ℚ) / (dh : ℚ) - 1 / 2)
      (((j : ℚ) + 1 / 2) * (sw : ℚ) / (dw : ℚ) - 1 / 2)

/-- All entries of a 2D map, row-major. -/
def matVals (h w : Nat) (f : Fin h → Fin w → ℚ) : List ℚ :=
  (List.finRange h).flatMap (fun i => (List.finRange w).map (f i))

/-- `np.min` over a 2D array (0 on an empty array, which the code never
hits). -/
def matMin (h w : Nat) (f : Fin h → Fin w → ℚ) : ℚ :=
  match matVals h w f with
  | [] => 0
  | v :: vs => vs.foldl min v

/-- `np.max` over a 2D array (0 on an empty array). -/
def matMax (h w : Nat) (f : Fin h → Fin w → ℚ) : ℚ :=
  match matVals h w f with
  | [] => 0
  | v :: vs => vs.foldl max v

/-- C-style float-to-integer conversion: truncation toward zero. -/
def truncQ (q : ℚ) : ℤ :=
  if 0 ≤ q then ⌊q⌋ else ⌈q⌉

/-- `astype("uint8")`: truncate toward zero and wrap modulo 256. -/
def u8cast (q : ℚ) : ℕ :=
  (truncQ q % 256).toNat

/-- Lines 97-100: subtract the minimum, divide by `(max - min) + eps`,
scale by 255 and convert to unsigned 8-bit. -/
def normalizeHeatmap (h w : Nat) (f : Fin h → Fin w → ℚ) (eps : ℚ) :
    Fin h → Fin w → ℕ :=
  let mn := matMin h w f
  let mx := matMax h w f
  let denom := (mx - mn) + eps
  fun i j => u8cast ((f i j - mn) / denom * 255)

/-- A 2D unsigned 8-bit array together with its shape, as returned by
`compute_heatmap`. -/
structure U8Map where
  h : Nat
  w : Nat
  data : Fin h → Fin w → ℕ

/-- `GradCAM.compute_heatmap` (lines 50-103).  The forward/backward pass is
the external autodiff service `ad`; `imgH`/`imgW` are `image.shape[1]` and
`image.shape[2]`.  Selecting `predictions[:, classIdx]` fails on an
out-of-range index; then the guided-gradient CAM is computed at the target
layer's resolution, resized to `(imgW, imgH)` and normalized to uint8. -/
def computeHeatmap (ad : AutodiffResult hL wL cC n) (imgH imgW : Nat)
    (classIdx : Int) (eps : ℚ) : Except GErr U8Map :=
  match tfColIndex n classIdx with
  | none => .error .invalidClassIndex
  | some k =>
    let grads := ad.gradFor k
    let cam := camMap ad.conv grads
    let heatmap := cv2Resize hL wL cam imgW imgH
    .ok { h := imgH, w := imgW, data := normalizeHeatmap imgH imgW heatmap eps }

/-- OpenCV scalar rounding (`cvRound`): nearest integer, ties to even. -/
def cvRound (q : ℚ) : ℤ :=
  let f := ⌊q⌋
  let r := q - (f : ℚ)
  if r < 1 / 2 then f
  else if 1 / 2 < r then f + 1
  else if f % 2 = 0 then f else f + 1

/-- OpenCV `saturate_cast<uchar>`: clip an integer into `[0, 255]`. -/
def u8sat (z : ℤ) : ℕ :=
  (min (max z 0) 255).toNat

/-- `cv2.addWeighted(src1, alpha, src2, beta, gamma)` on uint8 3-channel
images: per pixel and channel, `saturate(round(alpha*src1 + beta*src2 +
gamma))`. -/
def cvAddWeighted (src1 : Fin h → Fin w → Fin 3 → ℕ) (alpha : ℚ)
    (src2 : Fin h → Fin w → Fin 3 → ℕ) (beta gamma : ℚ) :
    Fin h → Fin w → Fin 3 → ℕ :=
  fun i j ch =>
    u8sat (cvRound (alpha * (src1 i j ch : ℚ) + beta * (src2 i j ch : ℚ) + gamma))

/-- `cv2.applyColorMap`: map each uint8 scalar through the palette `cmap`
(an external primitive: scalar to 3-channel color). -/
def cvApplyColorMap (hm : Fin h → Fin w → ℕ) (cmap : ℕ → Fin 3 → ℕ) :
    Fin h → Fin w → Fin 3 → ℕ :=
  fun i j ch => cmap (hm i j) ch

/-- `GradCAM.overlay_heatmap` (lines 105-114): colorize the heatmap through
the palette, then blend `addWeighted(image, alpha, heatmap, 1 - alpha, 0)`;
returns the (colorized heatmap, blended output) pair. -/
def overlayHeatmap (hm : Fin h → Fin w → ℕ) (image : Fin h → Fin w → Fin 3 → ℕ)
    (alpha : ℚ) (cmap : ℕ → Fin 3 → ℕ) :
    (Fin h → Fin w → Fin 3 → ℕ) × (Fin h → Fin w → Fin 3 → ℕ) :=
  let colorized := cvApplyColorMap hm cmap
  (colorized, cvAddWeighted image alpha colorized (1 - alpha) 0)

/-- A classifier as a reference into a weight store: `finalWeightsId` names
the slot holding the final stage's weight arrays. -/
structure RefModel where
  finalWeightsId : Nat
  finalActIsSoftmax : Bool
deriving DecidableEq, Repr

/-- The persistent state a `GradCAM` object holds after construction: which
model (by final-stage weight slot) it uses and the target layer name. -/
structure GCState where
  weightsId : Nat
  targetLayerName : String
deriving DecidableEq, Repr

/-- Lines 20-29 seen through a weight store (slot list): in the softmax case
read the original stage's weights (`x.numpy()` copies the values), allocate
a fresh slot for the rebuilt model's terminal stage and `set_weights` the
copied values into it; the non-softmax case touches nothing.  Returns the
updated store and the weight slot of `self.model`'s final stage. -/
def gradCAMInitStore (m : RefModel) (store : List (List ℚ)) :
    List (List ℚ) × Nat :=
  if m.finalActIsSoftmax then
    (store ++ [store.getD m.finalWeightsId []], store.length)
  else (store, m.finalWeightsId)

/-- `compute_heatmap` as a query over the object state and weight store: the
method assigns to no attribute and writes no weights, so the state and store
pass through unchanged alongside the result. -/
def computeHeatmapQuery (g : GCState) (store : List (List ℚ))
    (ad : AutodiffResult hL wL cC n) (imgH imgW : Nat) (classIdx : Int)
    (eps : ℚ) : Except GErr U8Map × GCState × List (List ℚ) :=
  (computeHeatmap ad imgH imgW classIdx eps, g, store)

/-- `overlay_heatmap` as a query over the object state and weight store:
it reads neither and writes nothing, so both pass through unchanged. -/
def overlayHeatmapQuery (g : GCState) (store : List (List ℚ))
    (hm : Fin h → Fin w → ℕ) (image : Fin h → Fin w → Fin 3 → ℕ) (alpha : ℚ)
    (cmap : ℕ → Fin 3 → ℕ) :
    ((Fin h → Fin w → Fin 3 → ℕ) × (Fin h → Fin w → Fin 3 → ℕ)) ×
      GCState × List (List ℚ) :=
  (overlayHeatmap hm image alpha cmap, g, store)

/-- C1: in `compute_heatmap`, the guided gradient at each element equals the
gradient exactly when both the activation and the gradient are strictly
positive and is zero otherwise; the per-channel weight is the mean of the
guided gradients over height and width; and the class activation map at each
location is the sum over channels of weight times activation. -/
theorem guided_cam_formulas (conv grads : Fin 1 → Fin hL → Fin wL → Fin cC → ℚ) :
    (∀ b h w c, guidedGrads conv grads b h w c =
      if 0 < conv b h w c ∧ 0 < grads b h w c then grads b h w c else 0) ∧
    (∀ c, camWeights conv grads c =
      (∑ h, ∑ w, if 0 < conv 0 h w c ∧ 0 < grads 0 h w c then grads 0 h w c
        else 0) / ((hL : ℚ) * (wL : ℚ))) ∧
    (∀ h w, camMap conv grads h w =
      ∑ c, camWeights conv grads c * conv 0 h w c) := by
  have key : ∀ b h w c, guidedGrads conv grads b h w c =
      if 0 < conv b h w c ∧ 0 < grads b h w c then grads b h w c else 0 := by
    intro b h w c
    unfold guidedGrads
    by_cases h1 : 0 < conv b h w c <;> by_cases h2 : 0 < grads b h w c <;>
      simp [h1, h2]
  refine ⟨key, fun c => ?_, fun h w => rfl⟩
  unfold camWeights
  congr 1
  exact Finset.sum_congr rfl fun h _ =>
    Finset.sum_congr rfl fun w _ => key 0 h w c

/-- C2: for a classifier whose final stage has softmax activation, the
linearized model built by the constructor (activation replaced by the
identity, weights value-copied, attached to the same preceding graph)
outputs, for every input and class index, exactly the pre-softmax logit of
the original model. -/
theorem linearize_preserves_logits (m : DenseNet inD hD outD)
    (hs : m.finalAct = ActKind.softmax)
    (softmaxSem : (Fin outD → ℚ) → (Fin outD → ℚ))
    (x : Fin inD → ℚ) (j : Fin outD) :
    forwardNet softmaxSem (linearizeModel m) x j = logits m x j := by
  simp [forwardNet, linearizeModel, hs, applyAct, logits, denseAffine]

/-- A tiny one-unit classifier with softmax terminal activation. -/
def miniNet : DenseNet 1 1 1 :=
  { backbone := fun x => x, kernel := fun _ _ => 2, bias := fun _ => 3,
    finalAct := ActKind.softmax }

/-- Witness for C2 on a concrete one-unit softmax classifier. -/
theorem linearize_preserves_logits_witness :
    miniNet.finalAct = ActKind.softmax ∧
    forwardNet id (linearizeModel miniNet) (fun _ => 5) 0 =
      logits miniNet (fun _ => 5) 0 :=
  ⟨rfl, linearize_preserves_logits miniNet rfl id (fun _ => 5) 0⟩

/-- C10: when the final stage's configuration has no `'activation'` entry,
construction fails with a missing-key error regardless of the explicit
layer-name argument and of the layer list, i.e. before any linearization or
layer search. -/
theorem missing_activation_key_keyError (m : SModel) (tname : Option String)
    (ms : Nat) (hk : cfgLookup m.finalCfg "activation" = none) :
    gradCAMInitS m tname ms = .error .keyError := by
  unfold gradCAMInitS
  rw [hk]

/-- A model whose final-stage config lacks the `'activation'` key even
though a rank-4 stage qualifies. -/
def noActModel : SModel :=
  { layers := [{ name := "conv", outputShape := [1, 8, 8, 4] }],
    finalCfg := [("units", "3")] }

/-- Witness for C10 on a concrete config without an `'activation'` key. -/
theorem missing_activation_key_keyError_witness :
    cfgLookup noActModel.finalCfg "activation" = none ∧
    gradCAMInitS noActModel none 1 = .error .keyError :=
  ⟨rfl, missing_activation_key_keyError noActModel none 1 rfl⟩

/-- C9: construction never mutates the original classifier's weight slots —
in the softmax case the derived terminal stage gets a fresh slot holding a
value-copy of the original weights — and neither query modifies the stored
object state or the weight store. -/
theorem init_and_queries_preserve_store (m : RefModel) (store : List (List ℚ))
    (hs : m.finalActIsSoftmax = true) (hw : m.finalWeightsId < store.length) :
    (∀ i, i < store.length →
      ((gradCAMInitStore m store).1)[i]? = store[i]?) ∧
    ((gradCAMInitStore m store).1)[(gradCAMInitStore m store).2]? =
      some (store.getD m.finalWeightsId []) ∧
    (gradCAMInitStore m store).2 ≠ m.finalWeightsId ∧
    (∀ (hL wL cC n : Nat) (g : GCState) (ad : AutodiffResult hL wL cC n)
        (imgH imgW : Nat) (classIdx : Int) (eps : ℚ),
      (computeHeatmapQuery g store ad imgH imgW classIdx eps).2 = (g, store)) ∧
    (∀ (h w : Nat) (g : GCState) (hm : Fin h → Fin w → ℕ)
        (image : Fin h → Fin w → Fin 3 → ℕ) (alpha : ℚ) (cmap : ℕ → Fin 3 → ℕ),
      (overlayHeatmapQuery g store hm image alpha cmap).2 = (g, store)) := by
  unfold gradCAMInitStore
  rw [hs]
  refine ⟨fun i hi => ?_, ?_, by simpa using Nat.ne_of_gt hw,
    fun _ _ _ _ _ _ _ _ _ _ => rfl, fun _ _ _ _ _ _ _ => rfl⟩
  · simp only [if_pos]
    exact List.getElem?_append_left hi
  · simp only [if_pos]
    exact List.getElem?_concat_length store _

/-- `find?` over a reversed list returns the qualifying element of greatest
index when everything after it fails the predicate. -/
lemma find_reverse_last {α : Type} (p : α → Bool) (ls : List α) (i : Nat)
    (hi : i < ls.length) (hp : p ls[i] = true)
    (hafter : ∀ j (hj : j < ls.length), i < j → p ls[j] = false) :
    ls.reverse.find? p = some ls[i] := by
  induction ls using List.reverseRecOn generalizing i with
  | nil => exact absurd hi (by simp)
  | append_singleton ds l ih =>
    rw [List.reverse_append ds [l], List.reverse_singleton, List.singleton_append]
    have hlen : (ds ++ [l]).length = ds.length + 1 := by simp
    by_cases hl : p l = true
    · rw [List.find?_cons_of_pos _ hl]
      have hieq : i = ds.length := by
        by_contra hne
        have hilt : i < ds.length := by omega
        have := hafter ds.length (by omega) hilt
        rw [List.getElem_concat_length ds l ds.length rfl] at this
        rw [hl] at this
        exact Bool.noConfusion this
      subst hieq
      rw [List.getElem_concat_length ds l ds.length rfl]
    · rw [List.find?_cons_of_neg _ hl]
      have hine : i ≠ ds.length := by
        intro hieq
        subst hieq
        rw [List.getElem_concat_length ds l ds.length rfl] at hp
        exact hl hp
      have hilt : i < ds.length := by omega
      have hget : (ds ++ [l])[i] = ds[i] := List.getElem_append_left hilt
      rw [hget] at hp ⊢
      refine ih i hilt hp ?_
      intro j hj hij
      have hj2 : j < (ds ++ [l]).length := by omega
      have := hafter j hj2 hij
      rwa [List.getElem_append_left hj] at this

/-- C5: with no explicit layer name, construction scans the stages in
reverse definition order and picks the deepest stage whose output is rank 4
with dimension 1 at least `target_layer_min_shape`: if stage `i` qualifies
and no later stage does, its name is selected.  Selection is a pure function
of the model and `minShape`, hence deterministic. -/
theorem auto_selects_deepest_qualifying (m : SModel) (ms : Nat) (a : String)
    (hact : cfgLookup m.finalCfg "activation" = some a)
    (i : Nat) (hi : i < (selectLayers m a).length)
    (hq : qualifies ms (selectLayers m a)[i] = true)
    (hafter : ∀ j (hj : j < (selectLayers m a).length), i < j →
      qualifies ms (selectLayers m a)[j] = false) :
    gradCAMInitS m none ms = .ok (selectLayers m a, (selectLayers m a)[i].name) := by
  have hfind : findTargetLayer (selectLayers m a) ms =
      some (selectLayers m a)[i].name := by
    unfold findTargetLayer
    rw [find_reverse_last (qualifies ms) _ i hi hq hafter]
    rfl
  simp only [gradCAMInitS, hact]
  rw [hfind]

/-- A model with two qualifying rank-4 stages at different depths followed
by a flattening stage. -/
def twoConvModel : SModel :=
  { layers := [{ name := "conv1", outputShape := [1, 8, 8, 4] },
               { name := "conv2", outputShape := [1, 4, 4, 8] },
               { name := "flat", outputShape := [1, 128] }],
    finalCfg := [("activation", "relu")] }

/-- Witness for C5: with two qualifying rank-4 stages, the later (deeper)
one, `conv2`, is selected. -/
theorem auto_selects_deepest_qualifying_witness :
    qualifies 1 ((selectLayers twoConvModel "relu").get ⟨1, by decide⟩) = true ∧
    gradCAMInitS twoConvModel none 1 =
      .ok (selectLayers twoConvModel "relu",
        ((selectLayers twoConvModel "relu").get ⟨1, by decide⟩).name) :=
  ⟨by decide,
    auto_selects_deepest_qualifying twoConvModel 1 "relu" rfl 1 (by decide)
      (by decide)
      (by
        intro j hj hlt
        have hj3 : j < 3 := by
          simpa [selectLayers, twoConvModel] using hj
        have hj2 : j = 2 := by omega
        subst hj2
        rfl)⟩

/-- C6: with no explicit layer name, construction fails with the
no-spatial-layer error exactly when no scanned stage qualifies; when some
stage qualifies it succeeds. -/
theorem noSpatialLayer_iff_none_qualifies (m : SModel) (ms : Nat) (a : String)
    (hact : cfgLookup m.finalCfg "activation" = some a) :
    (gradCAMInitS m none ms = .error .noSpatialLayerFound ↔
      ∀ l ∈ selectLayers m a, qualifies ms l = false) ∧
    ((∃ l ∈ selectLayers m a, qualifies ms l = true) →
      ∃ r, gradCAMInitS m none ms = .ok r) := by
  have hnone : findTargetLayer (selectLayers m a) ms = none ↔
      ∀ l ∈ selectLayers m a, qualifies ms l = false := by
    unfold findTargetLayer
    simp [List.find?_eq_none, List.mem_reverse]
  constructor
  · cases hf : findTargetLayer (selectLayers m a) ms with
    | none =>
      have hgoal : gradCAMInitS m none ms = .error .noSpatialLayerFound := by
        simp [gradCAMInitS, hact, hf]
      exact iff_of_true hgoal (hnone.mp hf)
    | some nm =>
      have hgoal : gradCAMInitS m none ms = .ok (selectLayers m a, nm) := by
        simp [gradCAMInitS, hact, hf]
      rw [hgoal]
      refine ⟨fun hcontra => Except.noConfusion hcontra, fun hall => ?_⟩
      rw [hnone.mpr hall] at hf
      exact Option.noConfusion hf
  · rintro ⟨l, hl, hq⟩
    cases hf : findTargetLayer (selectLayers m a) ms with
    | none =>
      have := hnone.mp hf l hl
      rw [hq] at this
      exact Bool.noConfusion this
    | some nm =>
      exact ⟨(selectLayers m a, nm), by simp [gradCAMInitS, hact, hf]⟩

/-- A model with no rank-4 stage at all. -/
def denseOnlyModel : SModel :=
  { layers := [{ name := "d1", outputShape := [1, 10] }],
    finalCfg := [("activation", "relu")] }

/-- Witness for C6 on a model without any rank-4 stage. -/
theorem noSpatialLayer_iff_none_qualifies_witness :
    cfgLookup denseOnlyModel.finalCfg "activation" = some "relu" ∧
    ((gradCAMInitS denseOnlyModel none 1 = .error .noSpatialLayerFound ↔
      ∀ l ∈ selectLayers denseOnlyModel "relu", qualifies 1 l = false) ∧
    ((∃ l ∈ selectLayers denseOnlyModel "relu", qualifies 1 l = true) →
      ∃ r, gradCAMInitS denseOnlyModel none 1 = .ok r)) :=
  ⟨rfl, noSpatialLayer_iff_none_qualifies denseOnlyModel 1 "relu" rfl⟩

/-- A uint8 cast always lands in `[0, 255]`. -/
lemma u8cast_le_255 (q : ℚ) : u8cast q ≤ 255 := by
  unfold u8cast
  have h1 : truncQ q % 256 < 256 := Int.emod_lt_of_pos _ (by norm_num)
  have h2 : 0 ≤ truncQ q % 256 := Int.emod_nonneg _ (by norm_num)
  omega

/-- C3: for a valid class index, `compute_heatmap` returns an unsigned 8-bit
2D map whose shape is exactly the input image's `shape[1] × shape[2]`,
whatever the target layer's resolution `hL × wL`, with every value in
`[0, 255]`. -/
theorem computeHeatmap_shape_and_range (ad : AutodiffResult hL wL cC n)
    (imgH imgW : Nat) (classIdx : Int) (eps : ℚ) (k : Fin n)
    (hidx : tfColIndex n classIdx = some k) :
    ∃ hmr, computeHeatmap ad imgH imgW classIdx eps = .ok hmr ∧
      hmr.h = imgH ∧ hmr.w = imgW ∧ ∀ i j, hmr.data i j ≤ 255 := by
  refine ⟨⟨imgH, imgW,
    normalizeHeatmap imgH imgW
      (cv2Resize hL wL (camMap ad.conv (ad.gradFor k)) imgW imgH) eps⟩,
    ?_, rfl, rfl, fun i j => ?_⟩
  · unfold computeHeatmap
    rw [hidx]
  · exact u8cast_le_255 _

/-- Concrete autodiff outputs on a 1×1×1 target layer with 3 classes. -/
def adTiny : AutodiffResult 1 1 1 3 :=
  { conv := fun _ _ _ _ => 0, preds := fun _ => 0,
    gradFor := fun _ _ _ _ _ => 0 }

/-- Witness for C3 at class index 0 on a 2×2 input image. -/
theorem computeHeatmap_shape_and_range_witness :
    tfColIndex 3 0 = some ⟨0, by decide⟩ ∧
    ∃ hmr, computeHeatmap adTiny 2 2 0 1 = .ok hmr ∧
      hmr.h = 2 ∧ hmr.w = 2 ∧ ∀ i j, hmr.data i j ≤ 255 :=
  ⟨by decide, computeHeatmap_shape_and_range adTiny 2 2 0 1 ⟨0, by decide⟩ (by decide)⟩

/-- Folding `min` over a list of copies of the seed returns the seed. -/
lemma foldl_min_const (l : List ℚ) (c : ℚ) (hl : ∀ x ∈ l, x = c) :
    l.foldl min c = c := by
  induction l with
  | nil => rfl
  | cons b bs ih =>
    rw [List.foldl_cons, hl b (by simp), min_self]
    exact ih fun x hx => hl x (by simp [hx])

/-- Folding `max` over a list of copies of the seed returns the seed. -/
lemma foldl_max_const (l : List ℚ) (c : ℚ) (hl : ∀ x ∈ l, x = c) :
    l.foldl max c = c := by
  induction l with
  | nil => rfl
  | cons b bs ih =>
    rw [List.foldl_cons, hl b (by simp), max_self]
    exact ih fun x hx => hl x (by simp [hx])

/-- Every entry of the row-major value list comes from the map. -/
lemma matVals_mem_eq (hD wD : Nat) (f : Fin hD → Fin wD → ℚ) (x : ℚ)
    (hx : x ∈ matVals hD wD f) : ∃ i j, x = f i j := by
  simp only [matVals, List.mem_flatMap, List.mem_map, List.mem_finRange,
    true_and] at hx
  obtain ⟨i, j, hj⟩ := hx
  exact ⟨i, j, hj.symm⟩

/-- The top-left entry occurs in the row-major value list. -/
lemma matVals_mem_topleft (hD wD : Nat) (f : Fin hD → Fin wD → ℚ)
    (hh : 0 < hD) (hw : 0 < wD) :
    f ⟨0, hh⟩ ⟨0, hw⟩ ∈ matVals hD wD f := by
  simp only [matVals, List.mem_flatMap, List.mem_map, List.mem_finRange,
    true_and]
  exact ⟨⟨0, hh⟩, ⟨0, hw⟩, rfl⟩

/-- On a constant map both `np.min` and `np.max` return the common value. -/
lemma matMin_matMax_const (hD wD : Nat) (f : Fin hD → Fin wD → ℚ)
    (hh : 0 < hD) (hw : 0 < wD)
    (hconst : ∀ i j i2 j2, f i j = f i2 j2) :
    matMin hD wD f = f ⟨0, hh⟩ ⟨0, hw⟩ ∧ matMax hD wD f = f ⟨0, hh⟩ ⟨0, hw⟩ := by
  have hall : ∀ x ∈ matVals hD wD f, x = f ⟨0, hh⟩ ⟨0, hw⟩ := by
    intro x hx
    obtain ⟨i, j, hij⟩ := matVals_mem_eq hD wD f x hx
    rw [hij]
    exact hconst i j ⟨0, hh⟩ ⟨0, hw⟩
  have hne := matVals_mem_topleft hD wD f hh hw
  unfold matMin matMax
  cases hv : matVals hD wD f with
  | nil => rw [hv] at hne; cases hne
  | cons v vs =>
    have hveq : v = f ⟨0, hh⟩ ⟨0, hw⟩ := hall v (by rw [hv]; simp)
    have hvs : ∀ x ∈ vs, x = f ⟨0, hh⟩ ⟨0, hw⟩ :=
      fun x hx => hall x (by rw [hv]; simp [hx])
    rw [hveq]
    exact ⟨foldl_min_const vs _ hvs, foldl_max_const vs _ hvs⟩

/-- C4: for `eps > 0`, normalizing a constant map (max = min) divides by
`eps` alone — the denominator is exactly `eps`, nonzero — and every
resulting heatmap value is 0; no error, and in this exact-rational model no
NaN can arise. -/
theorem normalize_constant_map_zero (hD wD : Nat) (hh : 0 < hD) (hw : 0 < wD)
    (f : Fin hD → Fin wD → ℚ) (eps : ℚ) (heps : 0 < eps)
    (hconst : ∀ i j i2 j2, f i j = f i2 j2) :
    (matMax hD wD f - matMin hD wD f) + eps = eps ∧ eps ≠ 0 ∧
    ∀ i j, normalizeHeatmap hD wD f eps i j = 0 := by
  obtain ⟨hmin, hmax⟩ := matMin_matMax_const hD wD f hh hw hconst
  refine ⟨by rw [hmin, hmax]; ring, ne_of_gt heps, fun i j => ?_⟩
  have hfij : f i j = f ⟨0, hh⟩ ⟨0, hw⟩ := hconst i j ⟨0, hh⟩ ⟨0, hw⟩
  simp [normalizeHeatmap, hmin, hmax, hfij, u8cast, truncQ]

/-- Witness for C4 on the all-zero 1×1 map with `eps = 1`. -/
theorem normalize_constant_map_zero_witness :
    0 < 1 ∧ 0 < (1 : ℚ) ∧
    ((matMax 1 1 (fun _ _ => (0 : ℚ)) - matMin 1 1 (fun _ _ => (0 : ℚ))) + 1 = 1 ∧
      (1 : ℚ) ≠ 0 ∧
      ∀ i j, normalizeHeatmap 1 1 (fun _ _ => (0 : ℚ)) 1 i j = 0) :=
  ⟨Nat.one_pos, by norm_num,
    normalize_constant_map_zero 1 1 Nat.one_pos Nat.one_pos
      (fun _ _ => 0) 1 (by norm_num) (fun _ _ _ _ => rfl)⟩

/-- Python/TF column indexing fails exactly outside `[-n, n)`. -/
lemma tfColIndex_eq_none_iff (n : Nat) (i : Int) :
    tfColIndex n i = none ↔ ((n : Int) ≤ i ∨ i < -(n : Int)) := by
  unfold tfColIndex
  split_ifs with h1 h2 <;> simp <;> omega

/-- C7 (amended): `compute_heatmap` fails with the invalid-class-index error
exactly when `classIdx ≥ n` or `classIdx < -n`; a negative index in
`[-n, 0)` is accepted (Python-style indexing from the end). -/
theorem invalidClassIndex_iff_out_of_range (ad : AutodiffResult hL wL cC n)
    (imgH imgW : Nat) (classIdx : Int) (eps : ℚ) :
    computeHeatmap ad imgH imgW classIdx eps = .error .invalidClassIndex ↔
      ((n : Int) ≤ classIdx ∨ classIdx < -(n : Int)) := by
  rw [← tfColIndex_eq_none_iff]
  unfold computeHeatmap
  cases h : tfColIndex n classIdx <;> simp [h]

/-- Counterexample to C7 as stated: with 3 output classes, class index `-1`
is negative yet `compute_heatmap` does not fail with the invalid-class-index
error (it selects the last class, Python-style). -/
theorem negative_index_not_invalidClassIndex :
    computeHeatmap adTiny 2 2 (-1) 1 ≠ Except.error GErr.invalidClassIndex := by
  intro hEq
  have hok : (computeHeatmap adTiny 2 2 (-1) 1).isOk = true := rfl
  rw [hEq] at hok
  exact Bool.noConfusion hok

/-- Rounding an integer-valued rational is exact. -/
lemma cvRound_intCast (z : ℤ) : cvRound (z : ℚ) = z := by
  simp [cvRound, Int.floor_intCast]

/-- Saturation is the identity on values already in `[0, 255]`. -/
lemma u8sat_natCast (v : ℕ) (hv : v ≤ 255) : u8sat (v : ℤ) = v := by
  unfold u8sat
  omega

/-- Weighting a uint8 pair by `(1, 0)` returns the first operand. -/
lemma addWeighted_alpha_one (a b : ℕ) (ha : a ≤ 255) :
    u8sat (cvRound ((1 : ℚ) * a + (1 - 1) * b + 0)) = a := by
  have harg : (1 : ℚ) * a + (1 - 1) * b + 0 = ((a : ℤ) : ℚ) := by
    push_cast
    ring
  rw [harg, cvRound_intCast, u8sat_natCast a ha]

/-- Weighting a uint8 pair by `(0, 1)` returns the second operand. -/
lemma addWeighted_alpha_zero (a b : ℕ) (hb : b ≤ 255) :
    u8sat (cvRound ((0 : ℚ) * a + (1 - 0) * b + 0)) = b := by
  have harg : (0 : ℚ) * a + (1 - 0) * b + 0 = ((b : ℤ) : ℚ) := by
    push_cast
    ring
  rw [harg, cvRound_intCast, u8sat_natCast b hb]

/-- C8: `overlay_heatmap` blends per pixel and channel as
`alpha * image + (1 - alpha) * colorized` (rounded and clipped to the uint8
range); with `alpha = 1` the blend is the original image and with
`alpha = 0` it is the colorized heatmap. -/
theorem overlay_blend_and_endpoints (hm : Fin h → Fin w → ℕ)
    (image : Fin h → Fin w → Fin 3 → ℕ) (alpha : ℚ) (cmap : ℕ → Fin 3 → ℕ)
    (himg : ∀ i j ch, image i j ch ≤ 255) (hcm : ∀ v ch, cmap v ch ≤ 255) :
    (∀ i j ch, (overlayHeatmap hm image alpha cmap).2 i j ch =
      u8sat (cvRound (alpha * (image i j ch : ℚ) +
        (1 - alpha) * (cmap (hm i j) ch : ℚ)))) ∧
    (alpha = 1 → (overlayHeatmap hm image alpha cmap).2 = image) ∧
    (alpha = 0 → (overlayHeatmap hm image alpha cmap).2 =
      (overlayHeatmap hm image alpha cmap).1) := by
  refine ⟨fun i j ch => ?_, fun h1 => ?_, fun h0 => ?_⟩
  · simp [overlayHeatmap, cvAddWeighted, cvApplyColorMap]
  · subst h1
    funext i j ch
    exact addWeighted_alpha_one _ _ (himg i j ch)
  · subst h0
    funext i j ch
    exact addWeighted_alpha_zero _ _ (hcm (hm i j) ch)

/-- Witness for C8 on a 1×1 image with a constant palette. -/
theorem overlay_blend_and_endpoints_witness :
    (∀ (i j : Fin 1) (ch : Fin 3),
      (fun (_ : Fin 1) (_ : Fin 1) (_ : Fin 3) => (10 : ℕ)) i j ch ≤ 255) ∧
    (∀ (v : ℕ) (ch : Fin 3), (fun (_ : ℕ) (_ : Fin 3) => (100 : ℕ)) v ch ≤ 255) ∧
    ((∀ (i j : Fin 1) (ch : Fin 3),
      (overlayHeatmap (fun _ _ => 7) (fun _ _ _ => 10) (1 / 2)
        (fun _ _ => 100)).2 i j ch =
      u8sat (cvRound ((1 / 2 : ℚ) * ((10 : ℕ) : ℚ) +
        (1 - 1 / 2) * (((fun (_ : ℕ) (_ : Fin 3) => (100 : ℕ)) 7 ch : ℕ) : ℚ)))) ∧
    ((1 / 2 : ℚ) = 1 →
      (overlayHeatmap (fun _ _ => 7) (fun (_ : Fin 1) (_ : Fin 1) (_ : Fin 3) =>
        (10 : ℕ)) (1 / 2) (fun _ _ => 100)).2 = fun _ _ _ => 10) ∧
    ((1 / 2 : ℚ) = 0 →
      (overlayHeatmap (fun _ _ => 7) (fun (_ : Fin 1) (_ : Fin 1) (_ : Fin 3) =>
        (10 : ℕ)) (1 / 2) (fun _ _ => 100)).2 =
      (overlayHeatmap (fun _ _ => 7) (fun _ _ _ => 10) (1 / 2)
        (fun _ _ => 100)).1)) :=
  ⟨fun _ _ _ => by norm_num, fun _ _ => by norm_num,
    overlay_blend_and_endpoints (fun _ _ => 7) (fun _ _ _ => 10) (1 / 2)
      (fun _ _ => 100) (fun _ _ _ => by norm_num) (fun _ _ => by norm_num)⟩

/-- A two-slot weight store for the frame-condition witness. -/
def wStore : List (List ℚ) := [[1, 2], [3]]

/-- A classifier reference with a softmax final stage stored in slot 0. -/
def softmaxRef : RefModel := { finalWeightsId := 0, finalActIsSoftmax := true }

/-- Witness for C9 on a concrete softmax classifier and weight store. -/
theorem init_and_queries_preserve_store_witness :
    softmaxRef.finalActIsSoftmax = true ∧
    softmaxRef.finalWeightsId < wStore.length ∧
    ((∀ i, i < wStore.length →
      ((gradCAMInitStore softmaxRef wStore).1)[i]? = wStore[i]?) ∧
    ((gradCAMInitStore softmaxRef wStore).1)[(gradCAMInitStore softmaxRef wStore).2]? =
      some (wStore.getD softmaxRef.finalWeightsId []) ∧
    (gradCAMInitStore softmaxRef wStore).2 ≠ softmaxRef.finalWeightsId ∧
    (∀ (hL wL cC n : Nat) (g : GCState) (ad : AutodiffResult hL wL cC n)
        (imgH imgW : Nat) (classIdx : Int) (eps : ℚ),
      (computeHeatmapQuery g wStore ad imgH imgW classIdx eps).2 = (g, wStore)) ∧
    (∀ (h w : Nat) (g : GCState) (hm : Fin h → Fin w → ℕ)
        (image : Fin h → Fin w → Fin 3 → ℕ) (alpha : ℚ) (cmap : ℕ → Fin 3 → ℕ),
      (overlayHeatmapQuery g wStore hm image alpha cmap).2 = (g, wStore))) :=
  ⟨rfl, by decide,
    init_and_queries_preserve_store softmaxRef wStore rfl (by decide)⟩
